import Mathlib

/-! Shallow embedding of `distribute_reads_to_targets_bwa.py` (HybPiper-RBGV).

The script builds a dictionary from BWA hit lines (`read_sorting`) and then
streams one or two FASTQ read files, appending reads to per-target output
files (`distribute_reads`, `write_paired_seqs`, `write_single_seqs`).

Modelling choices:
* Python strings are Lean `String`s; `str.split()` / `str.split("-")` /
  `str.endswith` / `s[:-2]` are re-implemented structurally over `String.data`
  so that the kernel can evaluate them (`pySplit`, `lastDashSegment`,
  `pyEndsWith`, `pyDropLast2`).
* The Python dict `read_hit_dict` is an insertion-ordered association list
  with unique keys (`HitDict`); dict membership/update is `getHits`/`addHit`.
* Read files are lists of already-parsed FASTQ records (`FastqRec`), matching
  what `FastqGeneralIterator` yields (title line without `@`, sequence,
  quality).
* Filesystem effects are reified as a trace of operations (`FsOp`): directory
  creation (`mkdir_p`) and file appends (every `open(..., 'a')` followed by
  `write` and `close` becomes one `FsOp.append` per `write` call).
* A run returns the trace of operations performed before it finished or
  crashed, plus an optional error (`RunResult`); uncaught Python exceptions
  (IndexError, StopIteration on `next(iterator2)`, the unbound `iterator2`
  for three or more read files) become `some errorName`.
-/

namespace HybPiper

/-- Split a character list at every character satisfying `p`, keeping empty
segments, like Python `str.split(sep)` does for a one-character separator. -/
def splitChars (p : Char → Bool) : List Char → List (List Char)
  | [] => [[]]
  | c :: cs =>
    match splitChars p cs with
    | [] => [[]]
    | w :: ws => if p c then [] :: w :: ws else (c :: w) :: ws

/-- Python `str.split()` with no argument: split on runs of whitespace,
discarding empty fields. -/
def pySplit (s : String) : List String :=
  ((splitChars Char.isWhitespace s.data).map fun w => String.mk w).filter
    (fun w => w ≠ "")

/-- Python `s.split("-")[-1]`: the substring after the last hyphen
(the whole string when there is no hyphen). -/
def lastDashSegment (s : String) : String :=
  String.mk ((splitChars (fun c => c = '-') s.data).getLastD [])

/-- Python `s.endswith(t)`. -/
def pyEndsWith (s t : String) : Bool := t.data.isSuffixOf s.data

/-- Python `s[:-2]`: drop the last two characters (empty for short strings). -/
def pyDropLast2 (s : String) : String := String.mk (s.data.take (s.data.length - 2))

/-- The `read_hit_dict` of the script: a Python dict from read identifier to
a list of target identifiers, modelled as an insertion-ordered association
list with unique keys. -/
abbrev HitDict := List (String × List String)

/-- Dict lookup: `read_hit_dict[readID]` / `readID in read_hit_dict`. -/
def getHits : HitDict → String → Option (List String)
  | [], _ => none
  | (r, ts) :: rest, readID => if r = readID then some ts else getHits rest readID

/-- One iteration of the loop body of `read_sorting` (lines 43-48 of the
script): if `readID` is already a key, append `target` to its list unless the
target is already present; otherwise add a new key with a singleton list. -/
def addHit : HitDict → String → String → HitDict
  | [], readID, target => [(readID, [target])]
  | (r, ts) :: rest, readID, target =>
    if r = readID then (r, if target ∈ ts then ts else ts ++ [target]) :: rest
    else (r, ts) :: addHit rest readID target

/-- Field extraction of one BWA hit line (lines 40-42 of the script):
`line = line.split()`, `readID = line[0]`, `target = line[2].split("-")[-1]`.
Returns `none` exactly when Python raises IndexError, i.e. when the line has
fewer than three whitespace-delimited fields. -/
def parseHitLine (line : String) : Option (String × String) :=
  match (pySplit line).get? 0, (pySplit line).get? 2 with
  | some readID, some f2 => some (readID, lastDashSegment f2)
  | _, _ => none

/-- The loop of `read_sorting` over the remaining hit lines, carrying the
dict built so far; a malformed line aborts with IndexError. -/
def read_sorting_go : HitDict → List String → Except String HitDict
  | d, [] => .ok d
  | d, l :: ls =>
    match parseHitLine l with
    | some (readID, target) => read_sorting_go (addHit d readID target) ls
    | none => .error "IndexError"

/-- Model of `read_sorting` (lines 38-49 of the script), applied to the hit lines the
external `samtools view` call produced: build `read_hit_dict`. -/
def read_sorting (lines : List String) : Except String HitDict :=
  read_sorting_go [] lines

/-- A FASTQ record as yielded by Biopython's `FastqGeneralIterator`:
title line (without the leading `@`), sequence, quality string. -/
structure FastqRec where
  title : String
  seq : String
  qual : String
deriving DecidableEq, Repr

/-- A filesystem side effect of the script: `mkdir_p` or one `write` call on
a file opened in append mode (`'a'`). The script never opens an output file
in any mode other than append, so there is no truncating operation. -/
inductive FsOp where
  | mkdir (dir : String)
  | append (path : String) (data : String)
deriving DecidableEq, Repr

/-- Python `os.path.join(dir, file)` for the values the script passes (no trailing
separator on `dir`). -/
def joinPath (dir file : String) : String := dir ++ "/" ++ file

/-- File name `"{}_interleaved.fasta".format(target)` inside directory `target`. -/
def interleavedFasta (target : String) : String :=
  joinPath target (target ++ "_interleaved.fasta")

/-- File name `"{}_interleaved.fastq".format(target)` inside directory `target`. -/
def interleavedFastq (target : String) : String :=
  joinPath target (target ++ "_interleaved.fastq")

/-- File name `"{}_unpaired.fasta".format(target)` inside directory `target`. -/
def unpairedPath (target : String) : String :=
  joinPath target (target ++ "_unpaired.fasta")

/-- File name `"{}_1.fasta".format(target)` inside directory `target`. -/
def splitPath1 (target : String) : String := joinPath target (target ++ "_1.fasta")

/-- File name `"{}_2.fasta".format(target)` inside directory `target`. -/
def splitPath2 (target : String) : String := joinPath target (target ++ "_2.fasta")

/-- FASTA record text `">{}\n{}\n".format(ID, Seq)`. -/
def fastaRecord (id sq : String) : String := ">" ++ id ++ "\n" ++ sq ++ "\n"

/-- FASTQ record text `"@{}\n{}\n{}\n{}\n".format(ID, Seq, '+', Qual)`. -/
def fastqRecord (id sq q : String) : String :=
  "@" ++ id ++ "\n" ++ sq ++ "\n" ++ "+" ++ "\n" ++ q ++ "\n"

/-- Model of `write_paired_seqs` (lines 52-71 of the script) as the trace of filesystem
operations it performs, in order: `mkdir_p(target)`, then, in interleaved mode
(`single=True`), the two FASTQ writes when `merged` is set followed by the two
FASTA writes; in split mode (`single=False`) one write to each of the
`_1.fasta` / `_2.fasta` files. -/
def write_paired_seqs (target ID1 Seq1 Qual1 ID2 Seq2 Qual2 : String)
    (single merged : Bool) : List FsOp :=
  FsOp.mkdir target ::
    (if single then
      (if merged then
        [FsOp.append (interleavedFastq target) (fastqRecord ID1 Seq1 Qual1),
         FsOp.append (interleavedFastq target) (fastqRecord ID2 Seq2 Qual2)]
      else []) ++
      [FsOp.append (interleavedFasta target) (fastaRecord ID1 Seq1),
       FsOp.append (interleavedFasta target) (fastaRecord ID2 Seq2)]
    else
      [FsOp.append (splitPath1 target) (fastaRecord ID1 Seq1),
       FsOp.append (splitPath2 target) (fastaRecord ID2 Seq2)])

/-- Model of `write_single_seqs` (lines 74-79 of the script): `mkdir_p(target)` and one
append of the FASTA record to `{target}_unpaired.fasta`. -/
def write_single_seqs (target ID1 Seq1 : String) : List FsOp :=
  [FsOp.mkdir target, FsOp.append (unpairedPath target) (fastaRecord ID1 Seq1)]

/-- Python `ID_long.split()[0]`: the first whitespace-delimited field of a record's
title line; IndexError when the title has no fields. -/
def firstField (s : String) : Except String String :=
  match pySplit s with
  | [] => .error "IndexError"
  | f :: _ => .ok f

/-- The paired-end identifier normalization (lines 104-110 of the script):
`if ID.endswith("/1") or ID.endswith("/2"): ID = ID[:-2]`. -/
def stripMateTag (i : String) : String :=
  if pyEndsWith i "/1" || pyEndsWith i "/2" then pyDropLast2 i else i

/-- The single-end identifier normalization (lines 88-90 of the script):
`if ID1.endswith("\1") or ID1.endswith("\2"): ID1 = ID1[:-2]`. In Python the
string literals `"\1"` and `"\2"` are octal escapes denoting the control
characters U+0001 and U+0002, not the two-character mate suffixes `/1`, `/2`,
so this branch strips two characters only from identifiers ending in those
control characters. -/
def stripMateTagSingle (i : String) : String :=
  if pyEndsWith i "\x01" || pyEndsWith i "\x02" then pyDropLast2 i else i

/-- Identifier normalization used in paired-end mode. -/
def normIdPaired (s : String) : Except String String :=
  (firstField s).map stripMateTag

/-- Identifier normalization used in single-end mode (with the script's
control-character test, see `stripMateTagSingle`). -/
def normIdSingle (s : String) : Except String String :=
  (firstField s).map stripMateTagSingle

/-- The fan-out of one matched pair over a target list (lines 113-115 /
117-118 of the script): one `write_paired_seqs` call per target, with the
interleaved default `single=True`. -/
def pairFanout (ts : List String) (i1 s1 q1 i2 s2 q2 : String) (merged : Bool) :
    List FsOp :=
  ts.flatMap fun t => write_paired_seqs t i1 s1 q1 i2 s2 q2 true merged

/-- The body of the paired-end loop (lines 104-118 of the script) for one pair
of records: normalize both identifiers, then look up identifier 1 first and
identifier 2 only if identifier 1 is not a key (`if`/`elif`). -/
def processPair (d : HitDict) (merged : Bool) (r1 r2 : FastqRec) :
    Except String (List FsOp) :=
  match normIdPaired r1.title with
  | .error e => .error e
  | .ok i1 =>
    match normIdPaired r2.title with
    | .error e => .error e
    | .ok i2 =>
      match getHits d i1 with
      | some ts => .ok (pairFanout ts i1 r1.seq r1.qual i2 r2.seq r2.qual merged)
      | none =>
        match getHits d i2 with
        | some ts => .ok (pairFanout ts i1 r1.seq r1.qual i2 r2.seq r2.qual merged)
        | none => .ok []

/-- The body of the single-end loop (lines 87-93 of the script) for one
record: normalize the identifier, and if it is a key write the read to each
of its targets. -/
def processSingle (d : HitDict) (r : FastqRec) : Except String (List FsOp) :=
  match normIdSingle r.title with
  | .error e => .error e
  | .ok i =>
    match getHits d i with
    | some ts => .ok (ts.flatMap fun t => write_single_seqs t i r.seq)
    | none => .ok []

/-- Trace of a run: the filesystem operations performed before the run
finished or crashed, and the uncaught error if it crashed. -/
structure RunResult where
  ops : List FsOp
  err : Option String
deriving DecidableEq, Repr

/-- The single-end loop of `distribute_reads` (lines 87-94 of the script). -/
def singleLoop (d : HitDict) : List FastqRec → RunResult
  | [] => ⟨[], none⟩
  | r :: rest =>
    match processSingle d r with
    | .error e => ⟨[], some e⟩
    | .ok ops =>
      let rr := singleLoop d rest
      ⟨ops ++ rr.ops, rr.err⟩

/-- The paired-end loop of `distribute_reads` (lines 100-118 of the script):
a `for` over the first iterator whose body starts with `next(iterator2)`.
When the first source is exhausted the loop simply ends, leaving any extra
records of the second source unread; when the second source is exhausted
first, the bare `next` raises StopIteration and crashes the run before any
write of that iteration. -/
def pairedLoop (d : HitDict) (merged : Bool) :
    List FastqRec → List FastqRec → RunResult
  | [], _ => ⟨[], none⟩
  | _ :: _, [] => ⟨[], some "StopIteration"⟩
  | r1 :: t1, r2 :: t2 =>
    match processPair d merged r1 r2 with
    | .error e => ⟨[], some e⟩
    | .ok ops =>
      let rr := pairedLoop d merged t1 t2
      ⟨ops ++ rr.ops, rr.err⟩

/-- Model of `distribute_reads` (lines 82-118 of the script), with each read file given
as its list of FASTQ records. With no read file, `readfiles[0]` raises
IndexError. With one file, run the single-end loop. With two files, run the
paired-end loop. With three or more files, `iterator2` is never assigned, so
the first loop iteration crashes at `next(iterator2)` with UnboundLocalError
before any filesystem operation; if the first file has no records the loop
body never runs and the call returns without output. -/
def distribute_reads (readfiles : List (List FastqRec)) (d : HitDict)
    (merged : Bool) : RunResult :=
  match readfiles with
  | [] => ⟨[], some "IndexError"⟩
  | [f1] => singleLoop d f1
  | [f1, f2] => pairedLoop d merged f1 f2
  | f1 :: _ :: _ :: _ => if f1.isEmpty then ⟨[], none⟩ else ⟨[], some "UnboundLocalError"⟩

/-- Interpretation of one filesystem operation on file contents (a map from
path to current content). `mkdir` does not change any file; an append-mode
write adds `data` at the end of the file, never truncating. -/
def applyOp (fs : String → String) : FsOp → String → String
  | .mkdir _ => fs
  | .append p data => fun q => if q = p then fs q ++ data else fs q

/-- Run a trace of filesystem operations over initial file contents. -/
def applyOps (fs : String → String) (ops : List FsOp) : String → String :=
  ops.foldl applyOp fs

/-- Everything a trace appends to the file at path `p`, in order. -/
def appendedTo : List FsOp → String → String
  | [], _ => ""
  | FsOp.mkdir _ :: rest, p => appendedTo rest p
  | FsOp.append q data :: rest, p =>
    (if q = p then data else "") ++ appendedTo rest p

/-- The target directories a trace creates, in order. -/
def writtenTargets (ops : List FsOp) : List String :=
  ops.filterMap fun op =>
    match op with
    | .mkdir t => some t
    | _ => none

/-- Append `t` to `ts` unless already present (the dedup insertion of
`read_sorting`). -/
def insDedup (ts : List String) (t : String) : List String :=
  if t ∈ ts then ts else ts ++ [t]

/-- First-occurrence deduplication of a list, keeping insertion order. -/
def dedupFirst (ts : List String) : List String := ts.foldl insDedup []

/-- Spec-side extraction for the hit index: the target identifiers of all
well-formed hit lines whose read identifier (field 0) equals `r`, in input
order, before deduplication. -/
def hitLineTargets (lines : List String) (r : String) : List String :=
  (lines.filterMap parseHitLine).filterMap
    fun p => if p.1 = r then some p.2 else none

/-- Dedup-insertion lifted to an optional accumulated list: the effect of one
`addHit` on the entry of a fixed read identifier. -/
def optIns (o : Option (List String)) (t : String) : Option (List String) :=
  some (insDedup (o.getD []) t)

/-- Spec-side expected content of `{t}/{t}_unpaired.fasta` after the
single-end pass: one FASTA record, under the normalized identifier, for each
read whose normalized identifier is a key of the hit index whose target list
contains `t`; nothing for any other read. -/
def specSingleContent (d : HitDict) (t : String) : List FastqRec → String
  | [] => ""
  | r :: rs =>
    (match normIdSingle r.title with
     | .ok i =>
       match getHits d i with
       | some ts => if t ∈ ts then fastaRecord i r.seq else ""
       | none => ""
     | .error _ => "") ++ specSingleContent d t rs

/-- Spec-side lock-step pairing: process the zip of the two sources, one pair
per iteration. -/
def zipRun (d : HitDict) (merged : Bool) : List (FastqRec × FastqRec) → RunResult
  | [] => ⟨[], none⟩
  | (r1, r2) :: rest =>
    match processPair d merged r1 r2 with
    | .error e => ⟨[], some e⟩
    | .ok ops =>
      let rr := zipRun d merged rest
      ⟨ops ++ rr.ops, rr.err⟩

/-! ### Lemmas about the hit-index builder -/

theorem getHits_addHit_self (d : HitDict) (r t : String) :
    getHits (addHit d r t) r = some (insDedup ((getHits d r).getD []) t) := by
  induction d with
  | nil => simp [addHit, getHits, insDedup]
  | cons p rest ih =>
    obtain ⟨k, ts⟩ := p
    by_cases hk : k = r
    · subst hk
      simp [addHit, getHits, insDedup]
    · simp [addHit, getHits, hk, ih]

theorem getHits_addHit_other (d : HitDict) (r' t r : String) (h : r' ≠ r) :
    getHits (addHit d r' t) r = getHits d r := by
  induction d with
  | nil => simp [addHit, getHits, h]
  | cons p rest ih =>
    obtain ⟨k, ts⟩ := p
    by_cases hk : k = r'
    · subst hk
      simp [addHit, getHits, h]
    · simp [addHit, getHits, hk, ih]

theorem hitLineTargets_cons (l : String) (ls : List String) (r : String) :
    hitLineTargets (l :: ls) r =
      (match parseHitLine l with
       | some p => if p.1 = r then [p.2] else []
       | none => []) ++ hitLineTargets ls r := by
  cases hp : parseHitLine l with
  | none => simp [hitLineTargets, List.filterMap_cons, hp]
  | some p =>
    by_cases hr : p.1 = r <;>
      simp [hitLineTargets, List.filterMap_cons, hp, hr]

theorem read_sorting_go_spec (ls : List String) (d0 d : HitDict)
    (h : read_sorting_go d0 ls = .ok d) (r : String) :
    getHits d r = (hitLineTargets ls r).foldl optIns (getHits d0 r) := by
  induction ls generalizing d0 with
  | nil =>
    simp only [read_sorting_go, Except.ok.injEq] at h
    subst h
    simp [hitLineTargets]
  | cons l ls ih =>
    rw [read_sorting_go] at h
    cases hp : parseHitLine l with
    | none => rw [hp] at h; exact absurd h (by simp)
    | some p =>
      obtain ⟨rid, tg⟩ := p
      rw [hp] at h
      rw [ih (addHit d0 rid tg) h, hitLineTargets_cons, hp]
      by_cases hr : rid = r
      · subst hr
        simp [getHits_addHit_self, optIns]
      · simp [hr, getHits_addHit_other d0 rid tg r hr]

theorem foldl_optIns_some (ts : List String) (acc : List String) :
    ts.foldl optIns (some acc) = some (ts.foldl insDedup acc) := by
  induction ts generalizing acc with
  | nil => rfl
  | cons t ts ih => simp [optIns, ih]

theorem foldl_optIns_none (ts : List String) :
    ts.foldl optIns none =
      if ts = [] then none else some (dedupFirst ts) := by
  cases ts with
  | nil => rfl
  | cons t ts =>
    simp [dedupFirst, optIns, insDedup, foldl_optIns_some]

theorem parseHitLine_none_iff (l : String) :
    parseHitLine l = none ↔ (pySplit l).length < 3 := by
  constructor
  · intro h
    by_contra hlen
    push_neg at hlen
    obtain ⟨f0, h0⟩ : ∃ f0, (pySplit l).get? 0 = some f0 := by
      rw [List.get?_eq_get (by omega)]; exact ⟨_, rfl⟩
    obtain ⟨f2, h2⟩ : ∃ f2, (pySplit l).get? 2 = some f2 := by
      rw [List.get?_eq_get (by omega)]; exact ⟨_, rfl⟩
    rw [parseHitLine, h0, h2] at h
    exact absurd h (by simp)
  · intro h
    have h2 : (pySplit l).get? 2 = none := List.get?_eq_none.mpr (by omega)
    rw [parseHitLine, h2]
    cases (pySplit l).get? 0 <;> rfl

theorem read_sorting_go_short (lines : List String) (d0 : HitDict)
    (h : ∃ l ∈ lines, (pySplit l).length < 3) :
    read_sorting_go d0 lines = .error "IndexError" := by
  induction lines generalizing d0 with
  | nil => simp at h
  | cons l ls ih =>
    rw [read_sorting_go]
    cases hp : parseHitLine l with
    | none => rfl
    | some p =>
      obtain ⟨l', hmem, hshort⟩ := h
      rcases List.mem_cons.mp hmem with rfl | hmem'
      · rw [(parseHitLine_none_iff l').mpr hshort] at hp
        exact absurd hp (by simp)
      · exact ih _ ⟨l', hmem', hshort⟩

/-! ### Claim theorems: hit-index builder -/

/-- Claim C1: for every sequence of alignment-hit lines that `read_sorting`
accepts, the built hit index maps each read identifier (field 0 of a line,
verbatim) to the list of target identifiers (field 2 after its last hyphen)
of the lines naming that read, deduplicated so each distinct target appears
at most once per read, with first-insertion order preserved; identifiers
occurring in no line are absent from the index. -/
theorem C1_hit_index_dedup (lines : List String) (d : HitDict)
    (h : read_sorting lines = .ok d) (r : String) :
    getHits d r =
      if hitLineTargets lines r = [] then none
      else some (dedupFirst (hitLineTargets lines r)) := by
  rw [read_sorting] at h
  rw [read_sorting_go_spec lines [] d h r]
  exact foldl_optIns_none _

/-- Witness for C1 at the spec's round-trip scenario: the three hit lines for
`readA` (with `target-5968` repeated) produce exactly the index
`{"readA": ["5968", "6128"]}`. -/
theorem C1_hit_index_dedup_witness :
    read_sorting ["readA 0 target-5968", "readA 0 target-5968", "readA 16 target-6128"]
        = .ok [("readA", ["5968", "6128"])] ∧
    getHits [("readA", ["5968", "6128"])] "readA" = some ["5968", "6128"] := by
  refine ⟨rfl, ?_⟩
  have h := C1_hit_index_dedup
    ["readA 0 target-5968", "readA 0 target-5968", "readA 16 target-6128"]
    [("readA", ["5968", "6128"])] rfl "readA"
  rw [h]
  decide

/-- Claim C9: any hit-line input containing a line with fewer than three
whitespace-delimited fields (an empty line included) makes `read_sorting`
fail with the out-of-range error; it never returns a mapping for such an
input. -/
theorem C9_short_line_fails (lines : List String)
    (h : ∃ l ∈ lines, (pySplit l).length < 3) :
    read_sorting lines = .error "IndexError" := by
  rw [read_sorting]
  exact read_sorting_go_short lines [] h

/-- Witness for C9: an input consisting of one empty line fails with the
out-of-range error. -/
theorem C9_short_line_fails_witness :
    (∃ l ∈ [""], (pySplit l).length < 3) ∧
    read_sorting [""] = .error "IndexError" :=
  ⟨by decide, C9_short_line_fails [""] (by decide)⟩

/-! ### Lemmas about filesystem traces -/

theorem appendedTo_append (a b : List FsOp) (p : String) :
    appendedTo (a ++ b) p = appendedTo a p ++ appendedTo b p := by
  induction a with
  | nil => simp [appendedTo]
  | cons op rest ih =>
    cases op <;> simp [appendedTo, ih, String.append_assoc]

theorem applyOps_eq (ops : List FsOp) (fs : String → String) (p : String) :
    applyOps fs ops p = fs p ++ appendedTo ops p := by
  induction ops generalizing fs with
  | nil => simp [applyOps, appendedTo]
  | cons op rest ih =>
    cases op with
    | mkdir dir =>
      simp only [applyOps, List.foldl_cons] at *
      rw [ih]
      simp [applyOp, appendedTo]
    | append q data =>
      simp only [applyOps, List.foldl_cons] at *
      rw [ih]
      by_cases h : q = p
      · subst h
        simp [applyOp, appendedTo, String.append_assoc]
      · have h' : p ≠ q := fun hh => h hh.symm
        simp [applyOp, appendedTo, h, h']

theorem joinPath_self_inj (t t' a : String)
    (h : joinPath t (t ++ a) = joinPath t' (t' ++ a)) : t = t' := by
  have hd := congrArg String.data h
  simp only [joinPath, String.data_append] at hd
  have hlen : t.data.length = t'.data.length := by
    have hl := congrArg List.length hd
    simp only [List.length_append] at hl
    omega
  have h1 := (List.append_inj hd (by simp [List.length_append, hlen])).1
  have h2 := (List.append_inj h1 hlen).1
  exact String.ext h2

theorem unpairedPath_inj {t t' : String} (h : unpairedPath t = unpairedPath t') :
    t = t' :=
  joinPath_self_inj t t' "_unpaired.fasta" h

theorem interleaved_paths_ne (t : String) : interleavedFastq t ≠ interleavedFasta t := by
  intro h
  have hd := congrArg String.data h
  simp only [interleavedFasta, interleavedFastq, joinPath, String.data_append] at hd
  have h1 := List.append_cancel_left hd
  have h2 := List.append_cancel_left h1
  exact absurd h2 (by decide)

/-! ### Claim theorems: output formatting and append-only semantics -/

/-- Claim C7: for every matched pair written to a target (the script calls
`write_paired_seqs` with its default `single=True` from `distribute_reads`),
the trace always appends exactly the two FASTA records, mate 1 first, to
`{target}/{target}_interleaved.fasta`, and appends the two FASTQ records
(with the literal `+` separator line inside `fastqRecord`) to
`{target}/{target}_interleaved.fastq` exactly when `merged` is set. -/
theorem C7_interleaved_writes (target ID1 Seq1 Qual1 ID2 Seq2 Qual2 : String)
    (merged : Bool) :
    appendedTo (write_paired_seqs target ID1 Seq1 Qual1 ID2 Seq2 Qual2 true merged)
        (interleavedFasta target)
      = fastaRecord ID1 Seq1 ++ fastaRecord ID2 Seq2 ∧
    appendedTo (write_paired_seqs target ID1 Seq1 Qual1 ID2 Seq2 Qual2 true merged)
        (interleavedFastq target)
      = (if merged then fastqRecord ID1 Seq1 Qual1 ++ fastqRecord ID2 Seq2 Qual2
         else "") := by
  have hne := interleaved_paths_ne target
  cases merged <;>
    exact ⟨by simp [write_paired_seqs, appendedTo, hne, Ne.symm hne,
                    String.append_empty, String.append_assoc],
           by simp [write_paired_seqs, appendedTo, hne, Ne.symm hne,
                    String.append_empty, String.append_assoc]⟩

/-- Claim C8: every output operation of a run is a directory creation or an
append-mode write (the trace type has no truncating operation), so rerunning
the same distribution against the same file contents appends every record a
second time: after two runs each file holds its prior content followed by the
run's appended data twice. -/
theorem C8_rerun_duplicates (readfiles : List (List FastqRec)) (d : HitDict)
    (merged : Bool) (fs0 : String → String) (p : String) :
    applyOps (applyOps fs0 (distribute_reads readfiles d merged).ops)
        (distribute_reads readfiles d merged).ops p
      = fs0 p ++ appendedTo (distribute_reads readfiles d merged).ops p
          ++ appendedTo (distribute_reads readfiles d merged).ops p := by
  rw [applyOps_eq, applyOps_eq]

/-! ### Lemmas about the paired-end pass -/

theorem writtenTargets_append (a b : List FsOp) :
    writtenTargets (a ++ b) = writtenTargets a ++ writtenTargets b := by
  simp [writtenTargets, List.filterMap_append]

theorem writtenTargets_write_paired (t i1 s1 q1 i2 s2 q2 : String)
    (single merged : Bool) :
    writtenTargets (write_paired_seqs t i1 s1 q1 i2 s2 q2 single merged) = [t] := by
  cases single <;> cases merged <;> simp [write_paired_seqs, writtenTargets]

theorem writtenTargets_pairFanout (ts : List String) (i1 s1 q1 i2 s2 q2 : String)
    (merged : Bool) :
    writtenTargets (pairFanout ts i1 s1 q1 i2 s2 q2 merged) = ts := by
  induction ts with
  | nil => rfl
  | cons t rest ih =>
    rw [pairFanout, List.flatMap_cons, writtenTargets_append,
        writtenTargets_write_paired]
    rw [pairFanout] at ih
    rw [ih]
    rfl

theorem normIdPaired_ok (s : String) (h : pySplit s ≠ []) :
    ∃ i, normIdPaired s = .ok i := by
  cases hp : pySplit s with
  | nil => exact absurd hp h
  | cons f rest =>
    exact ⟨stripMateTag f, by simp [normIdPaired, firstField, hp, Except.map]⟩

theorem processPair_ok (d : HitDict) (merged : Bool) (r1 r2 : FastqRec)
    (h1 : pySplit r1.title ≠ []) (h2 : pySplit r2.title ≠ []) :
    ∃ ops, processPair d merged r1 r2 = .ok ops := by
  obtain ⟨i1, hi1⟩ := normIdPaired_ok _ h1
  obtain ⟨i2, hi2⟩ := normIdPaired_ok _ h2
  simp only [processPair, hi1, hi2]
  cases getHits d i1 with
  | some ts => exact ⟨_, rfl⟩
  | none =>
    cases getHits d i2 with
    | some ts => exact ⟨_, rfl⟩
    | none => exact ⟨[], rfl⟩

theorem pairedLoop_eq_zipRun (d : HitDict) (merged : Bool)
    (rs1 rs2 : List FastqRec) (h : rs1.length = rs2.length) :
    pairedLoop d merged rs1 rs2 = zipRun d merged (rs1.zip rs2) := by
  induction rs1 generalizing rs2 with
  | nil =>
    cases rs2 with
    | nil => rfl
    | cons r t => simp at h
  | cons r1 t1 ih =>
    cases rs2 with
    | nil => simp at h
    | cons r2 t2 =>
      have hlen : t1.length = t2.length := by simpa using h
      rw [List.zip_cons_cons]
      cases hp : processPair d merged r1 r2 with
      | error e => simp [pairedLoop, zipRun, hp]
      | ok ops => simp [pairedLoop, zipRun, hp, ih t2 hlen]

/-! ### Claim theorems: paired-end pass -/

/-- Claim C2: in paired-end mode, when the normalized identifier of the mate
from source 1 is a key of the hit index, the pair is written (via the
interleaved `write_paired_seqs`) to exactly the targets that key maps to —
the conclusion does not depend on what, if anything, identifier 2 maps to —
and identifier 2's targets are used only when identifier 1 is absent from
the index (first-match-wins). -/
theorem C2_first_match_wins (d : HitDict) (merged : Bool) (r1 r2 : FastqRec)
    (i1 i2 : String)
    (h1 : normIdPaired r1.title = .ok i1) (h2 : normIdPaired r2.title = .ok i2) :
    (∀ ts1, getHits d i1 = some ts1 →
      processPair d merged r1 r2
          = .ok (pairFanout ts1 i1 r1.seq r1.qual i2 r2.seq r2.qual merged) ∧
      writtenTargets (pairFanout ts1 i1 r1.seq r1.qual i2 r2.seq r2.qual merged)
          = ts1) ∧
    (getHits d i1 = none → ∀ ts2, getHits d i2 = some ts2 →
      processPair d merged r1 r2
          = .ok (pairFanout ts2 i1 r1.seq r1.qual i2 r2.seq r2.qual merged) ∧
      writtenTargets (pairFanout ts2 i1 r1.seq r1.qual i2 r2.seq r2.qual merged)
          = ts2) := by
  constructor
  · intro ts1 hk
    refine ⟨?_, writtenTargets_pairFanout ts1 i1 r1.seq r1.qual i2 r2.seq r2.qual merged⟩
    simp [processPair, h1, h2, hk]
  · intro hnone ts2 hk2
    refine ⟨?_, writtenTargets_pairFanout ts2 i1 r1.seq r1.qual i2 r2.seq r2.qual merged⟩
    simp [processPair, h1, h2, hnone, hk2]

/-- Witness for C2: both mates' normalized identifiers (`a` and `b`) are keys
with different target sets, and only identifier 1's target `1` receives the
pair. -/
theorem C2_first_match_wins_witness :
    normIdPaired "a/1" = .ok "a" ∧
    normIdPaired "b/2" = .ok "b" ∧
    getHits [("a", ["1"]), ("b", ["2"])] "b" = some ["2"] ∧
    processPair [("a", ["1"]), ("b", ["2"])] false ⟨"a/1", "AA", "II"⟩ ⟨"b/2", "CC", "JJ"⟩
        = .ok (pairFanout ["1"] "a" "AA" "II" "b" "CC" "JJ" false) ∧
    writtenTargets (pairFanout ["1"] "a" "AA" "II" "b" "CC" "JJ" false) = ["1"] := by
  refine ⟨rfl, rfl, rfl, ?_⟩
  exact (C2_first_match_wins [("a", ["1"]), ("b", ["2"])] false
    ⟨"a/1", "AA", "II"⟩ ⟨"b/2", "CC", "JJ"⟩ "a" "b" rfl rfl).1 ["1"] rfl

/-- Claim C3: in paired-end mode over two sources of equal record count, the run
equals the run over the positional zip of the two sources: the Nth record of
source 1 is processed together with the Nth record of source 2, one pair per
iteration, whatever the identifiers are. -/
theorem C3_lockstep_zip (rs1 rs2 : List FastqRec) (d : HitDict) (merged : Bool)
    (h : rs1.length = rs2.length) :
    distribute_reads [rs1, rs2] d merged = zipRun d merged (rs1.zip rs2) :=
  pairedLoop_eq_zipRun d merged rs1 rs2 h

/-- Witness for C3 on two one-record sources. -/
theorem C3_lockstep_zip_witness :
    ([(⟨"x/1", "A", "I"⟩ : FastqRec)].length = [(⟨"x/2", "C", "J"⟩ : FastqRec)].length) ∧
    distribute_reads [[⟨"x/1", "A", "I"⟩], [⟨"x/2", "C", "J"⟩]] [("x", ["7"])] false
      = zipRun [("x", ["7"])] false
          ([(⟨"x/1", "A", "I"⟩ : FastqRec)].zip [⟨"x/2", "C", "J"⟩]) :=
  ⟨rfl, C3_lockstep_zip _ _ _ _ rfl⟩

/-- Counterexample to claim C4 as stated: the claim predicts a failure whichever
source is shorter, but when source 1 is the shorter one (here empty, against a
one-record source 2) the `for` loop over source 1 simply ends: the run
completes with no error and no output, silently ignoring source 2's extra
record. -/
theorem C4_counterexample :
    distribute_reads [[], [⟨"x/2", "C", "J"⟩]] [("x", ["7"])] false
      = ⟨[], none⟩ := rfl

/-- Claim C4 as amended: in paired-end mode the run fails with the end-of-stream
error exactly in the asymmetric case in which source 2 has fewer records than
source 1 (provided every consumed record's title has at least one field, so
no earlier IndexError fires); when source 1 is the shorter one the run
truncates silently instead. -/
theorem C4_stream2_shorter_fails (rs1 rs2 : List FastqRec) (d : HitDict)
    (merged : Bool) (hlen : rs2.length < rs1.length)
    (h1 : ∀ r ∈ rs1, pySplit r.title ≠ [])
    (h2 : ∀ r ∈ rs2, pySplit r.title ≠ []) :
    (distribute_reads [rs1, rs2] d merged).err = some "StopIteration" := by
  show (pairedLoop d merged rs1 rs2).err = some "StopIteration"
  induction rs1 generalizing rs2 with
  | nil => simp at hlen
  | cons r1 t1 ih =>
    cases rs2 with
    | nil => rfl
    | cons r2 t2 =>
      obtain ⟨ops, hp⟩ := processPair_ok d merged r1 r2
        (h1 r1 (List.mem_cons_self r1 t1)) (h2 r2 (List.mem_cons_self r2 t2))
      have := ih t2 (by simpa using hlen)
        (fun r h => h1 r (List.mem_cons_of_mem _ h))
        (fun r h => h2 r (List.mem_cons_of_mem _ h))
      simp [pairedLoop, hp, this]

/-- Witness for C4 (amended): two records against one fails with the
end-of-stream error. -/
theorem C4_stream2_shorter_fails_witness :
    (([(⟨"y/2", "C", "J"⟩ : FastqRec)].length < [(⟨"x/1", "A", "I"⟩ : FastqRec),
        ⟨"y/1", "G", "K"⟩].length) ∧
     (∀ r ∈ [(⟨"x/1", "A", "I"⟩ : FastqRec), ⟨"y/1", "G", "K"⟩], pySplit r.title ≠ []) ∧
     (∀ r ∈ [(⟨"y/2", "C", "J"⟩ : FastqRec)], pySplit r.title ≠ [])) ∧
    (distribute_reads [[⟨"x/1", "A", "I"⟩, ⟨"y/1", "G", "K"⟩], [⟨"y/2", "C", "J"⟩]]
        [("x", ["7"])] false).err = some "StopIteration" :=
  ⟨⟨by decide, by decide, by decide⟩,
   C4_stream2_shorter_fails _ _ _ _ (by decide) (by decide) (by decide)⟩

/-- Counterexample to claim C10 as stated: a call with three read files whose
first file holds no records never executes the loop body, so it completes
without any error (and without output), contradicting "for every call with
three or more read-file paths, the run fails". -/
theorem C10_counterexample :
    distribute_reads [[], [], []] [] false = ⟨[], none⟩ := rfl

/-- Claim C10 as amended: for a call with three or more read-file paths whose
first source holds at least one record, the run crashes on the very first
record — the second iterator variable was never assigned, so advancing it
raises — and the trace is empty: no directory is created and no file is
written. -/
theorem C10_three_files_fail (f1 f2 f3 : List FastqRec)
    (rest : List (List FastqRec)) (d : HitDict) (merged : Bool)
    (h : f1 ≠ []) :
    (distribute_reads (f1 :: f2 :: f3 :: rest) d merged).ops = [] ∧
    (distribute_reads (f1 :: f2 :: f3 :: rest) d merged).err
        = some "UnboundLocalError" := by
  cases f1 with
  | nil => exact absurd rfl h
  | cons r t => exact ⟨rfl, rfl⟩

/-- Witness for C10 (amended): three read files, one record in the first. -/
theorem C10_three_files_fail_witness :
    (([(⟨"a", "A", "I"⟩ : FastqRec)] : List FastqRec) ≠ []) ∧
    ((distribute_reads [[⟨"a", "A", "I"⟩], [], []] [] false).ops = [] ∧
     (distribute_reads [[⟨"a", "A", "I"⟩], [], []] [] false).err
         = some "UnboundLocalError") :=
  ⟨by decide, C10_three_files_fail _ _ _ _ _ _ (by decide)⟩

/-! ### Lemmas about the single-end pass -/

theorem normIdSingle_ok (s : String) (h : pySplit s ≠ []) :
    ∃ i, normIdSingle s = .ok i := by
  cases hp : pySplit s with
  | nil => exact absurd hp h
  | cons f rest =>
    exact ⟨stripMateTagSingle f, by simp [normIdSingle, firstField, hp, Except.map]⟩

theorem getHits_mem (d : HitDict) (r : String) (ts : List String)
    (h : getHits d r = some ts) : (r, ts) ∈ d := by
  induction d with
  | nil => simp [getHits] at h
  | cons p rest ih =>
    obtain ⟨k, vs⟩ := p
    rw [getHits] at h
    by_cases hk : k = r
    · rw [if_pos hk] at h
      cases h
      subst hk
      exact List.mem_cons_self _ _
    · rw [if_neg hk] at h
      exact List.mem_cons_of_mem _ (ih h)

theorem appendedTo_write_single (t' i s t : String) :
    appendedTo (write_single_seqs t' i s) (unpairedPath t)
      = if t' = t then fastaRecord i s else "" := by
  by_cases h : t' = t
  · subst h
    simp [write_single_seqs, appendedTo]
  · have hp : unpairedPath t' ≠ unpairedPath t := fun hh => h (unpairedPath_inj hh)
    simp [write_single_seqs, appendedTo, h, hp]

theorem appendedTo_single_fanout (ts : List String) (hnd : ts.Nodup)
    (i s t : String) :
    appendedTo (ts.flatMap fun t' => write_single_seqs t' i s) (unpairedPath t)
      = if t ∈ ts then fastaRecord i s else "" := by
  induction ts with
  | nil => simp [appendedTo]
  | cons t' rest ih =>
    rcases List.nodup_cons.mp hnd with ⟨hnotin, hndr⟩
    rw [List.flatMap_cons, appendedTo_append, appendedTo_write_single, ih hndr]
    by_cases h : t' = t
    · subst h
      simp [hnotin]
    · have h' : t ≠ t' := fun hh => h hh.symm
      simp [h, h', List.mem_cons]

/-! ### Claim theorems: single-end pass -/

/-- Claim C5 is a code bug, evaluated here on its failing input: in the
single-end branch the script tests `ID1.endswith("\1")` / `ID1.endswith("\2")`,
and the Python literals `"\1"`, `"\2"` are octal escapes for the control
characters U+0001/U+0002, not the mate suffixes `/1`, `/2`. So a single-end
record titled `readX/1` keeps its identifier unchanged and, even though
`readX` is a key of the hit index, produces no output — while the paired-end
normalization of the very same identifier does yield `readX`. An identifier
ending in the control character U+0001 is the one the single-end branch
actually truncates. -/
theorem C5_single_end_mate_tag_code_bug :
    normIdSingle "readX/1" = .ok "readX/1" ∧
    getHits [("readX", ["7"])] "readX" = some ["7"] ∧
    processSingle [("readX", ["7"])] ⟨"readX/1", "AAAA", "IIII"⟩ = .ok [] ∧
    normIdPaired "readX/1" = .ok "readX" ∧
    normIdSingle "readX\x01" = .ok "read" :=
  ⟨rfl, rfl, rfl, rfl, rfl⟩

/-- Claim C6: in single-end mode, the content appended to any target `t`'s
unpaired FASTA file is exactly the concatenation, in input order, of the
FASTA records of the reads whose normalized identifier is a key of the hit
index whose target list contains `t`; reads whose normalized identifier is
not a key contribute nothing anywhere, and the pass finishes without error.
(The hypothesis that each key's target list has no duplicates holds for every
index `read_sorting` builds.) -/
theorem C6_single_end_routing (d : HitDict) (rs : List FastqRec) (t : String)
    (hnd : ∀ p ∈ d, p.2.Nodup)
    (hh : ∀ r ∈ rs, pySplit r.title ≠ []) :
    (singleLoop d rs).err = none ∧
    appendedTo (singleLoop d rs).ops (unpairedPath t) = specSingleContent d t rs := by
  induction rs with
  | nil => exact ⟨rfl, rfl⟩
  | cons r rest ih =>
    have hr : pySplit r.title ≠ [] := hh r (List.mem_cons_self r rest)
    obtain ⟨i, hi⟩ := normIdSingle_ok _ hr
    obtain ⟨ih1, ih2⟩ := ih (fun r' h' => hh r' (List.mem_cons_of_mem _ h'))
    cases hg : getHits d i with
    | some ts =>
      have hts : ts.Nodup := hnd (i, ts) (getHits_mem d i ts hg)
      have hops : processSingle d r
          = .ok (ts.flatMap fun t' => write_single_seqs t' i r.seq) := by
        simp [processSingle, hi, hg]
      refine ⟨by simp [singleLoop, hops, ih1], ?_⟩
      simp only [singleLoop, hops]
      rw [appendedTo_append, appendedTo_single_fanout ts hts, ih2,
          specSingleContent, hi]
      simp [hg]
    | none =>
      have hops : processSingle d r = .ok [] := by
        simp [processSingle, hi, hg]
      refine ⟨by simp [singleLoop, hops, ih1], ?_⟩
      simp only [singleLoop, hops]
      rw [List.nil_append, ih2, specSingleContent, hi]
      simp [hg]

/-- Witness for C6 at the spec's end-to-end scenario: reads `readA`, `readB`,
`readC` with index `{"readA": ["5968"], "readC": ["5968", "6128"]}`; the
content of `5968/5968_unpaired.fasta` is `readA`'s record followed by
`readC`'s. -/
theorem C6_single_end_routing_witness :
    (∀ p ∈ [("readA", ["5968"]), ("readC", ["5968", "6128"])], p.2.Nodup) ∧
    (∀ r ∈ [(⟨"readA", "AAAA", "IIII"⟩ : FastqRec), ⟨"readB", "CCCC", "JJJJ"⟩,
        ⟨"readC", "GGGG", "KKKK"⟩], pySplit r.title ≠ []) ∧
    ((singleLoop [("readA", ["5968"]), ("readC", ["5968", "6128"])]
        [⟨"readA", "AAAA", "IIII"⟩, ⟨"readB", "CCCC", "JJJJ"⟩,
         ⟨"readC", "GGGG", "KKKK"⟩]).err = none ∧
     appendedTo (singleLoop [("readA", ["5968"]), ("readC", ["5968", "6128"])]
        [⟨"readA", "AAAA", "IIII"⟩, ⟨"readB", "CCCC", "JJJJ"⟩,
         ⟨"readC", "GGGG", "KKKK"⟩]).ops (unpairedPath "5968")
       = specSingleContent [("readA", ["5968"]), ("readC", ["5968", "6128"])]
           "5968" [⟨"readA", "AAAA", "IIII"⟩, ⟨"readB", "CCCC", "JJJJ"⟩,
             ⟨"readC", "GGGG", "KKKK"⟩]) :=
  ⟨by decide, by decide,
   C6_single_end_routing _ _ "5968" (by decide) (by decide)⟩

end HybPiper
